import Mathlib

/-!
# Verification of the majsoul-stats match-history aggregation core

A shallow embedding of `src/main.rs` of the `majsoul-stats` repository:
the game-type registry (`GameType`, `From<u64>`,`Display`), the match-record
parser (`parse_match_data` and its per-record step), and the cursor-based
pagination loop (`fetch_complete_match_history`).

Modelling conventions:
* Rust `u64` values are `Nat`; where two's-complement wraparound of `u64`
  subtraction matters (release-profile semantics of `end - start`), it is made
  explicit with `% 2 ^ 64`.  Rust `i64` values are `Int`.
* A Rust panic (`unwrap`, `expect`, `unreachable!`) is `Option.none` /
  `Except.error`; a function that can panic returns `Option`.
* `DateTime<Utc>` round-trips through `from_timestamp`/`timestamp`, so a match
  start time is carried as its underlying Unix-seconds value (a `Nat`); the
  out-of-range failure of `from_timestamp` (only reachable for timestamps
  beyond chrono's representable years) is not modelled.
* `slice::sort_by` is Rust's stable sort; it is embedded as
  `List.insertionSort` over the comparator's ordering, which is also a stable
  sort and therefore produces the same output (the output of a stable sort is
  uniquely determined by the ordering and the input).
* The HTTP transport and the upstream service are external collaborators; the
  pagination loop is therefore parameterised by a simulated upstream history
  (a finite list of raw records served in descending start-time windows) and
  by the wall-clock value used to seed the cursor.
-/

/-- `enum GameRule` from `src/main.rs`. -/
inductive GameRule : Type
  | ThreePlayer : GameRule
  | FourPlayer : GameRule
deriving DecidableEq, Repr

/-- `GameRule::api_base_url`. -/
def GameRule.api_base_url : GameRule → String
  | .ThreePlayer => "https://5-data.amae-koromo.com/api/v2/pl3"
  | .FourPlayer => "https://5-data.amae-koromo.com/api/v2/pl4"

/-- `GameRule::supported_mode_ids`. -/
def GameRule.supported_mode_ids : GameRule → String
  | .ThreePlayer => "21,22,23,24,25,26"
  | .FourPlayer => "8,9,11,12,15,16"

/-- `enum GameCategory` from `src/main.rs`. -/
inductive GameCategory : Type
  | Gold : GameCategory
  | GoldEast : GameCategory
  | Jade : GameCategory
  | JadeEast : GameCategory
  | Throne : GameCategory
  | ThroneEast : GameCategory
deriving DecidableEq, Repr

/-- `struct GameType` from `src/main.rs`. -/
structure GameType : Type where
  rule : GameRule
  category : GameCategory
deriving DecidableEq, Repr

/-- `impl Display for GameType`: rule prefix, a space, category name. -/
def GameType.display (gt : GameType) : String :=
  let rule_prefix :=
    match gt.rule with
    | .ThreePlayer => "3P"
    | .FourPlayer => "4P"
  let category_name :=
    match gt.category with
    | .GoldEast => "Gold East"
    | .Gold => "Gold"
    | .JadeEast => "Jade East"
    | .Jade => "Jade"
    | .ThroneEast => "Throne East"
    | .Throne => "Throne"
  rule_prefix ++ " " ++ category_name

/-- `impl From<u64> for GameType`.  The Rust `match` is an equality dispatch on
the mode id, rendered here as an equality chain; the `unreachable!` arm (a
panic) is `none`. -/
def GameType.fromModeId (mode_id : Nat) : Option GameType :=
  if mode_id = 21 then some ⟨.ThreePlayer, .GoldEast⟩
  else if mode_id = 22 then some ⟨.ThreePlayer, .Gold⟩
  else if mode_id = 23 then some ⟨.ThreePlayer, .JadeEast⟩
  else if mode_id = 24 then some ⟨.ThreePlayer, .Jade⟩
  else if mode_id = 25 then some ⟨.ThreePlayer, .ThroneEast⟩
  else if mode_id = 26 then some ⟨.ThreePlayer, .Throne⟩
  else if mode_id = 8 then some ⟨.FourPlayer, .GoldEast⟩
  else if mode_id = 9 then some ⟨.FourPlayer, .Gold⟩
  else if mode_id = 11 then some ⟨.FourPlayer, .JadeEast⟩
  else if mode_id = 12 then some ⟨.FourPlayer, .Jade⟩
  else if mode_id = 15 then some ⟨.FourPlayer, .ThroneEast⟩
  else if mode_id = 16 then some ⟨.FourPlayer, .Throne⟩
  else none

/-- The twelve mode identifiers the registry knows. -/
def knownModeIds : List Nat := [8, 9, 11, 12, 15, 16, 21, 22, 23, 24, 25, 26]

/-- One entry of the upstream `players` array: fields `accountId`, `nickname`,
`score`, `gradingScore` (the tuple `(player_id, player_name, final_score,
pt_change)` extracted in `parse_match_data`). -/
structure RawPlayer : Type where
  accountId : Nat
  nickname : String
  score : Int
  gradingScore : Int
deriving DecidableEq, Repr

/-- One raw upstream match record: fields `players`, `startTime`, `endTime`,
`modeId` read by `parse_match_data`. -/
structure RawMatch : Type where
  players : List RawPlayer
  startTime : Nat
  endTime : Nat
  modeId : Nat
deriving DecidableEq, Repr

/-- `struct PlayerResult` from `src/main.rs`. -/
structure PlayerResult : Type where
  name : String
  final_score : Int
deriving DecidableEq, Repr

/-- `struct GameMatch` from `src/main.rs` (`start_time` carried as the raw
Unix-seconds value). -/
structure GameMatch : Type where
  player_rank : Nat
  start_time : Nat
  duration_minutes : Nat
  game_type : GameType
  pt_change : Int
  player_results : List PlayerResult
deriving DecidableEq, Repr

/-- `2 ^ 64`, the modulus of Rust `u64` arithmetic. -/
def U64_MOD : Nat := 2 ^ 64

/-- The ordering used by `player_data.sort_by(|a, b| b.3.cmp(&a.3))`:
`a` may precede `b` when `b`'s point change is at most `a`'s. -/
def ptGE (a b : RawPlayer) : Prop := b.gradingScore ≤ a.gradingScore

instance instDecidablePtGE : DecidableRel ptGE :=
  fun a b => Int.decLe b.gradingScore a.gradingScore

instance instIsTotalPtGE : IsTotal RawPlayer ptGE :=
  ⟨fun a b => le_total b.gradingScore a.gradingScore⟩

instance instIsTransPtGE : IsTrans RawPlayer ptGE :=
  ⟨fun _ _ _ hab hbc => le_trans hbc hab⟩

/-- `player_data.sort_by(|a, b| b.3.cmp(&a.3))`: the stable sort of the
participant list by point change, descending. -/
def rankPlayers (players : List RawPlayer) : List RawPlayer :=
  List.insertionSort ptGE players

/-- The body of the per-record closure inside `parse_match_data`: rank the
participants, locate the target player (both `unwrap`s on a missing target,
and the `unreachable!` inside `GameType::from`, are `none`), and build the
`GameMatch`.  `duration_minutes` is the release-profile `u64` wrapping
subtraction followed by integer division by 60. -/
def parseOneMatch (target_player_id : Nat) (match_data : RawMatch) : Option GameMatch :=
  let player_data := rankPlayers match_data.players
  match List.findIdx? (fun p => decide (p.accountId = target_player_id)) player_data,
        GameType.fromModeId match_data.modeId,
        List.find? (fun p => decide (p.accountId = target_player_id)) player_data with
  | some position, some game_type, some target_entry =>
      some
        { player_rank := position + 1
          start_time := match_data.startTime
          duration_minutes := (match_data.endTime + U64_MOD - match_data.startTime) % U64_MOD / 60
          game_type := game_type
          pt_change := target_entry.gradingScore
          player_results :=
            player_data.map (fun p => { name := p.nickname, final_score := p.score }) }
  | _, _, _ => none

/-- `parse_match_data`: parse every record of one page; any panic inside the
per-record closure aborts the whole call (`none`), no record is skipped. -/
def parse_match_data : List RawMatch → Nat → Option (List GameMatch)
  | [], _ => some []
  | r :: rest, target_player_id =>
    match parseOneMatch target_player_id r, parse_match_data rest target_player_id with
    | some gm, some gms => some (gm :: gms)
    | _, _ => none

/-- The fixed lower time bound of every page request (`1262304000000` in the
request URL, representing 2010-01-01T00:00:00Z). -/
def HISTORICAL_FLOOR : Nat := 1262304000000

/-- Modelled from the spec: the upstream `player_records` endpoint, which is an
external service (only its contract appears in the repository).  Simulated over
a fixed finite `history` held in descending start-time order: a request with
upper time bound `cursor` returns the records whose start time lies between the
historical floor and the cursor (inclusive bounds, so that moving the cursor to
"last start time − 1" makes the next page strictly precede the previous one, as
the spec describes), capped at `limit` records. -/
def upstreamPage (history : List RawMatch) (cursor : Int) (limit : Nat) : List RawMatch :=
  (history.filter
    (fun r => decide (HISTORICAL_FLOOR ≤ r.startTime ∧ (r.startTime : Int) ≤ cursor))).take limit

/-- The `loop` inside `fetch_complete_match_history`, instrumented to record
each iteration as the pair (cursor used for the request, parsed batch); the
accumulated `all_matches` is the concatenation of the recorded batches.  `fuel`
bounds the number of iterations (the Rust loop has no such bound; termination
for a finite upstream is the content of the pagination theorems), and running
out of fuel — like a panic during parsing — yields `none`. -/
def fetchLoop (history : List RawMatch) (player_id : Nat) (limit : Nat) :
    Nat → Int → Option (List (Int × List GameMatch))
  | 0, _ => none
  | fuel + 1, cursor =>
    let raw := upstreamPage history cursor limit
    match parse_match_data raw player_id with
    | none => none
    | some batch_matches =>
      if hb : batch_matches = [] then
        some [(cursor, batch_matches)]
      else
        let next_cursor : Int := ((batch_matches.getLast hb).start_time : Int) - 1
        if raw.length < limit then
          some [(cursor, batch_matches)]
        else
          (fetchLoop history player_id limit fuel next_cursor).map
            (fun steps => (cursor, batch_matches) :: steps)

/-- `fetch_complete_match_history`: seed the cursor with the wall clock (`now`,
a parameter here since `chrono::Utc::now()` is ambient), request pages of 500,
and return the concatenated matches. -/
def fetch_complete_match_history (history : List RawMatch) (player_id : Nat)
    (now : Int) (fuel : Nat) : Option (List GameMatch) :=
  (fetchLoop history player_id 500 fuel now).map
    (fun steps => (steps.map Prod.snd).flatten)

/-- A concrete two-participant record (target player 42 ranked first), for
witnesses. -/
def sampleMatchTwo : RawMatch :=
  { players := [{ accountId := 42, nickname := "a", score := 25000, gradingScore := 10 },
                { accountId := 7, nickname := "b", score := 15000, gradingScore := -10 }],
    startTime := 1262304000100, endTime := 1262304000400, modeId := 16 }

/-- A concrete record that does not list player 42, for witnesses. -/
def sampleMatchAbsent : RawMatch :=
  { players := [{ accountId := 7, nickname := "b", score := 15000, gradingScore := -10 }],
    startTime := 1262304000100, endTime := 1262304000400, modeId := 16 }

/-- The spec's concrete duration example: start 1000000, end 1002400. -/
def sampleMatchDuration : RawMatch :=
  { players := [{ accountId := 42, nickname := "a", score := 25000, gradingScore := 10 }],
    startTime := 1000000, endTime := 1002400, modeId := 16 }

/-- A concrete record whose raw end time precedes its raw start time. -/
def sampleMatchNegative : RawMatch :=
  { players := [{ accountId := 42, nickname := "a", score := 25000, gradingScore := 10 }],
    startTime := 120, endTime := 0, modeId := 16 }

/-- A concrete three-participant record in raw (unranked) upstream order. -/
def sampleMatchThree : RawMatch :=
  { players := [{ accountId := 7, nickname := "b", score := 15000, gradingScore := -10 },
                { accountId := 42, nickname := "a", score := 35000, gradingScore := 30 },
                { accountId := 9, nickname := "c", score := 25000, gradingScore := 10 }],
    startTime := 1262304000100, endTime := 1262304000400, modeId := 22 }

/-- Error cases of `find_player_id_by_name`: the `?` operator propagates a
transport/decoding failure of the search call; a response that is not a
non-empty array becomes the `anyhow!("No player found …")` error. -/
inductive FindError : Type
  | transport : FindError
  | noPlayerFound : FindError
deriving DecidableEq, Repr

/-- `find_player_id_by_name`, embedded over the outcome of its single upstream
search call: `none` models a transport/decoding failure, `some entries` a
decoded JSON array of player entries (each reduced to its `id` field).  The
first entry's id is returned; an empty array is the "No player found" error. -/
def find_player_id_by_name (search_response : Option (List Nat)) : Except FindError Nat :=
  match search_response with
  | none => .error .transport
  | some [] => .error .noPlayerFound
  | some (id :: _) => .ok id

/-- The two status codes `handle_player_stats_request` can fail with. -/
inductive StatusCode : Type
  | NOT_FOUND : StatusCode
  | INTERNAL_SERVER_ERROR : StatusCode
deriving DecidableEq, Repr

/-- `struct UserStatsTemplate` from `src/main.rs`. -/
structure UserStatsTemplate : Type where
  player_name : String
  game_history : List GameMatch
deriving DecidableEq, Repr

/-- `handle_player_stats_request`, embedded over the outcomes of its two
upstream calls: `find_result` is what `find_player_id_by_name` returned and
`fetch_result pid` what `fetch_complete_match_history` returns for the
resolved id (`none` being any transport or parsing failure).  Rust's
`.map_err(|_| StatusCode::NOT_FOUND)?` and
`.map_err(|_| StatusCode::INTERNAL_SERVER_ERROR)?` are the two error
branches; an error result carries no history at all. -/
def handle_player_stats_request (player_name : String)
    (find_result : Except FindError Nat)
    (fetch_result : Nat → Option (List GameMatch)) :
    Except StatusCode UserStatsTemplate :=
  match find_result with
  | .error _ => .error .NOT_FOUND
  | .ok player_id =>
    match fetch_result player_id with
    | none => .error .INTERNAL_SERVER_ERROR
    | some game_history => .ok { player_name := player_name, game_history := game_history }

/-- A two-match simulated history with strictly decreasing start times, for
witnesses. -/
def smallHistory : List RawMatch :=
  [{ players := [{ accountId := 42, nickname := "a", score := 25000, gradingScore := 10 }],
     startTime := 1262304000200, endTime := 1262304000500, modeId := 16 },
   { players := [{ accountId := 42, nickname := "a", score := 20000, gradingScore := -5 }],
     startTime := 1262304000100, endTime := 1262304000400, modeId := 22 }]

/-- A three-match simulated history with strictly decreasing start times, for
witnesses. -/
def tinyHistory : List RawMatch :=
  [{ players := [{ accountId := 42, nickname := "a", score := 25000, gradingScore := 10 }],
     startTime := 1262304000300, endTime := 1262304000600, modeId := 16 },
   { players := [{ accountId := 42, nickname := "a", score := 20000, gradingScore := -5 }],
     startTime := 1262304000200, endTime := 1262304000500, modeId := 22 },
   { players := [{ accountId := 42, nickname := "a", score := 30000, gradingScore := 20 }],
     startTime := 1262304000100, endTime := 1262304000400, modeId := 8 }]

/-- 501 records for target player 42: the first 500 have strictly decreasing
start times; the 501st record shares its start time with the 500th, i.e. the
pair straddling the 500-record page boundary is tied on start time. -/
def boundaryTieHistory : List RawMatch :=
  ((List.range 500).map (fun i =>
    { players := [{ accountId := 42, nickname := "p", score := 25000, gradingScore := 10 }],
      startTime := 1262304002000 - i, endTime := 1262304002400, modeId := 16 })) ++
  [{ players := [{ accountId := 42, nickname := "p", score := 25000, gradingScore := 10 }],
     startTime := 1262304001501, endTime := 1262304002500, modeId := 16 }]

/-- C9 sanity example. -/
example : GameType.display ⟨.ThreePlayer, .GoldEast⟩ = "3P Gold East" := by decide

/-- **C3**: on the twelve known mode identifiers the classification is total
and injective (a bijection onto twelve distinct `GameType` values), and on
every other identifier it fails (`none`) instead of producing a default. -/
theorem gameType_fromModeId_bijective_on_known :
    (∀ m ∈ knownModeIds, (GameType.fromModeId m).isSome) ∧
    (∀ m ∈ knownModeIds, ∀ m' ∈ knownModeIds,
      GameType.fromModeId m = GameType.fromModeId m' → m = m') ∧
    (∀ m : Nat, m ∉ knownModeIds → GameType.fromModeId m = none) := by
  refine ⟨by decide, by decide, ?_⟩
  intro m hm
  simp only [knownModeIds, List.mem_cons, List.not_mem_nil, or_false] at hm
  push_neg at hm
  obtain ⟨h8, h9, h11, h12, h15, h16, h21, h22, h23, h24, h25, h26⟩ := hm
  unfold GameType.fromModeId
  split_ifs <;> simp_all

/-- Witness for C3: classification succeeds on the known identifier 8 and
fails on the unknown identifier 7. -/
theorem gameType_fromModeId_bijective_on_known_witness :
    (GameType.fromModeId 8).isSome ∧ GameType.fromModeId 7 = none := by
  constructor
  · exact gameType_fromModeId_bijective_on_known.1 8 (by decide)
  · exact gameType_fromModeId_bijective_on_known.2.2 7 (by decide)

/-- **C9**: every `GameType` displays as the ruleset prefix (`"3P"` or
`"4P"`), a space, and the category name with an optional `"East"` suffix; all
twelve values enumerated. -/
theorem gameType_display_form :
    GameType.display ⟨.ThreePlayer, .Gold⟩ = "3P Gold" ∧
    GameType.display ⟨.ThreePlayer, .GoldEast⟩ = "3P" ++ " " ++ ("Gold" ++ " East") ∧
    GameType.display ⟨.ThreePlayer, .Jade⟩ = "3P Jade" ∧
    GameType.display ⟨.ThreePlayer, .JadeEast⟩ = "3P" ++ " " ++ ("Jade" ++ " East") ∧
    GameType.display ⟨.ThreePlayer, .Throne⟩ = "3P Throne" ∧
    GameType.display ⟨.ThreePlayer, .ThroneEast⟩ = "3P" ++ " " ++ ("Throne" ++ " East") ∧
    GameType.display ⟨.FourPlayer, .Gold⟩ = "4P Gold" ∧
    GameType.display ⟨.FourPlayer, .GoldEast⟩ = "4P" ++ " " ++ ("Gold" ++ " East") ∧
    GameType.display ⟨.FourPlayer, .Jade⟩ = "4P Jade" ∧
    GameType.display ⟨.FourPlayer, .JadeEast⟩ = "4P" ++ " " ++ ("Jade" ++ " East") ∧
    GameType.display ⟨.FourPlayer, .Throne⟩ = "4P Throne" ∧
    GameType.display ⟨.FourPlayer, .ThroneEast⟩ = "4P" ++ " " ++ ("Throne" ++ " East") := by
  decide

/-! ## Parser-level helper lemmas -/

/-- Unfolding of a successful `parseOneMatch`. -/
theorem parseOneMatch_eq_some {pid : Nat} {m : RawMatch} {gm : GameMatch}
    (h : parseOneMatch pid m = some gm) :
    ∃ position game_type target_entry,
      List.findIdx? (fun p => decide (p.accountId = pid)) (rankPlayers m.players)
        = some position ∧
      GameType.fromModeId m.modeId = some game_type ∧
      List.find? (fun p => decide (p.accountId = pid)) (rankPlayers m.players)
        = some target_entry ∧
      gm =
        { player_rank := position + 1
          start_time := m.startTime
          duration_minutes := (m.endTime + U64_MOD - m.startTime) % U64_MOD / 60
          game_type := game_type
          pt_change := target_entry.gradingScore
          player_results :=
            (rankPlayers m.players).map (fun p => { name := p.nickname, final_score := p.score }) } := by
  simp only [parseOneMatch] at h
  split at h
  next position game_type target_entry hf hg ht =>
    exact ⟨position, game_type, target_entry, hf, hg, ht, (Option.some.inj h).symm⟩
  next => exact absurd h (by simp)

/-- A successful parse records each match's raw start time. -/
theorem parseOneMatch_start_time {pid : Nat} {m : RawMatch} {gm : GameMatch}
    (h : parseOneMatch pid m = some gm) : gm.start_time = m.startTime := by
  obtain ⟨_, _, _, _, _, _, rfl⟩ := parseOneMatch_eq_some h
  rfl

/-- `parse_match_data` succeeds exactly when every record parses, pairing each
record with its `GameMatch` in order. -/
theorem parse_match_data_eq_some_iff {page : List RawMatch} {pid : Nat}
    {gms : List GameMatch} :
    parse_match_data page pid = some gms ↔
      List.Forall₂ (fun r gm => parseOneMatch pid r = some gm) page gms := by
  induction page generalizing gms with
  | nil =>
    simp only [parse_match_data]
    constructor
    · rintro h; cases h; exact List.Forall₂.nil
    · rintro h; cases h; rfl
  | cons r rest ih =>
    simp only [parse_match_data]
    constructor
    · intro h
      rcases h1 : parseOneMatch pid r with _ | gm <;> rw [h1] at h
      · exact absurd h (by simp)
      rcases h2 : parse_match_data rest pid with _ | gms' <;> rw [h2] at h
      · exact absurd h (by simp)
      cases h
      exact List.Forall₂.cons h1 (ih.mp h2)
    · intro h
      cases h with
      | cons h1 h2 => rw [h1, ih.mpr h2]

/-- A successful page parse produces one `GameMatch` per raw record. -/
theorem parse_match_data_length {page : List RawMatch} {pid : Nat}
    {gms : List GameMatch} (h : parse_match_data page pid = some gms) :
    gms.length = page.length :=
  (List.Forall₂.length_eq (parse_match_data_eq_some_iff.mp h)).symm

/-- A successful page parse preserves the sequence of start times. -/
theorem parse_match_data_map_start {page : List RawMatch} {pid : Nat}
    {gms : List GameMatch} (h : parse_match_data page pid = some gms) :
    gms.map GameMatch.start_time = page.map RawMatch.startTime := by
  have h2 := parse_match_data_eq_some_iff.mp h
  clear h
  induction h2 with
  | nil => rfl
  | cons h1 _ ih => simp [parseOneMatch_start_time h1, ih]

/-- Parsing commutes with splitting a page at index `n`. -/
theorem parse_match_data_take_drop {page : List RawMatch} {pid : Nat}
    {gms : List GameMatch} (h : parse_match_data page pid = some gms) (n : Nat) :
    parse_match_data (page.take n) pid = some (gms.take n) ∧
      parse_match_data (page.drop n) pid = some (gms.drop n) := by
  have h2 := parse_match_data_eq_some_iff.mp h
  exact ⟨parse_match_data_eq_some_iff.mpr (List.forall₂_take n h2),
    parse_match_data_eq_some_iff.mpr (List.forall₂_drop n h2)⟩

/-- If any record of a page fails to parse, the whole page parse aborts. -/
theorem parse_match_data_eq_none_of_mem {page : List RawMatch} {r : RawMatch}
    {pid : Nat} (hr : r ∈ page) (hfail : parseOneMatch pid r = none) :
    parse_match_data page pid = none := by
  induction page with
  | nil => cases hr
  | cons hd tl ih =>
    rcases List.mem_cons.mp hr with rfl | hmem
    · simp [parse_match_data, hfail]
    · simp only [parse_match_data, ih hmem]
      cases parseOneMatch pid hd <;> rfl

/-- In a list that is `Pairwise R`, every element is the last element or is
related by `R` to it. -/
theorem pairwise_rel_getLast {α : Type} {R : α → α → Prop} {l : List α}
    (hp : List.Pairwise R l) (h : l ≠ []) :
    ∀ x ∈ l, x = l.getLast h ∨ R x (l.getLast h) := by
  intro x hx
  have hsplit := List.dropLast_append_getLast h
  rw [← hsplit] at hp hx
  rcases List.mem_append.mp hx with hx' | hx'
  · exact Or.inr ((List.pairwise_append.mp hp).2.2 x hx' _ (List.mem_singleton_self _))
  · exact Or.inl (List.mem_singleton.mp hx')

/-! ## Parser-level claims -/

/-- **C2**: in every parsed page, each record's target-player rank is in
`[1, number of participants]`, ranking assigns positions `1..N` of the
point-change-descending order, and each rank value in `[1, N]` is achieved by
exactly one position, with no gaps or repeats. -/
theorem rank_validity {page : List RawMatch} {pid : Nat} {gms : List GameMatch}
    (h : parse_match_data page pid = some gms) :
    List.Forall₂ (fun r gm =>
      1 ≤ gm.player_rank ∧ gm.player_rank ≤ r.players.length ∧
      (rankPlayers r.players).length = r.players.length ∧
      (∀ k : Nat, 1 ≤ k → k ≤ r.players.length →
        ∃! i : Fin (rankPlayers r.players).length, (i : Nat) + 1 = k)) page gms := by
  refine (parse_match_data_eq_some_iff.mp h).imp ?_
  intro r gm hone
  obtain ⟨pos, game_type, target_entry, hf, hg, ht, rfl⟩ := parseOneMatch_eq_some hone
  have hlen : (rankPlayers r.players).length = r.players.length :=
    (List.perm_insertionSort ptGE r.players).length_eq
  have hpos : pos < (rankPlayers r.players).length :=
    (List.findIdx?_eq_some_iff_findIdx_eq.mp hf).1
  refine ⟨Nat.le_add_left 1 pos, by simp only; omega, hlen, ?_⟩
  intro k hk1 hk2
  refine ⟨⟨k - 1, by omega⟩, by simp only; omega, ?_⟩
  intro j hj
  apply Fin.ext
  simp only at hj ⊢
  omega

/-- Witness for C2 on a concrete two-participant record. -/
theorem rank_validity_witness :
    ∃ gms, parse_match_data [sampleMatchTwo] 42 = some gms ∧
      List.Forall₂ (fun (r : RawMatch) (gm : GameMatch) =>
        1 ≤ gm.player_rank ∧ gm.player_rank ≤ r.players.length ∧
        (rankPlayers r.players).length = r.players.length ∧
        (∀ k : Nat, 1 ≤ k → k ≤ r.players.length →
          ∃! i : Fin (rankPlayers r.players).length, (i : Nat) + 1 = k))
        [sampleMatchTwo] gms := by
  obtain ⟨gms, hp⟩ := Option.isSome_iff_exists.mp
    (show (parse_match_data [sampleMatchTwo] 42).isSome = true by decide)
  exact ⟨gms, hp, rank_validity hp⟩

/-- **C4**: if the target player's id is absent from the participant list of
any record of a page, the whole page parse aborts with `none` (the Rust
`unwrap` panic), rather than skipping the record or producing a `GameMatch`. -/
theorem parse_fails_when_target_absent {page : List RawMatch} {r : RawMatch}
    {pid : Nat} (hr : r ∈ page) (habs : ∀ p ∈ r.players, p.accountId ≠ pid) :
    parse_match_data page pid = none := by
  apply parse_match_data_eq_none_of_mem hr
  have hnone : List.findIdx? (fun p => decide (p.accountId = pid))
      (rankPlayers r.players) = none := by
    rw [List.findIdx?_eq_none_iff]
    intro p hp
    have hmem : p ∈ r.players := ((List.perm_insertionSort ptGE r.players).mem_iff).mp hp
    simp [habs p hmem]
  simp [parseOneMatch, hnone]

/-- Witness for C4: a record listing only player 7 aborts a parse that targets
player 42. -/
theorem parse_fails_when_target_absent_witness :
    parse_match_data [sampleMatchAbsent] 42 = none :=
  parse_fails_when_target_absent (List.mem_singleton_self _) (by decide)

/-- **C5 (amended)**: when the raw end time is at least the raw start time (and
in `u64` range), the parsed duration is the floor of `(endTime − startTime) /
60`; a zero raw duration is accepted as-is.  (Negative raw spans are *not*
representable as-is: the `u64` subtraction wraps modulo `2^64`, see the
counterexample.) -/
theorem duration_floor_division {pid : Nat} {m : RawMatch} {gm : GameMatch}
    (h : parseOneMatch pid m = some gm)
    (hord : m.startTime ≤ m.endTime) (hrange : m.endTime < U64_MOD) :
    gm.duration_minutes = (m.endTime - m.startTime) / 60 := by
  obtain ⟨pos, game_type, target_entry, hf, hg, ht, rfl⟩ := parseOneMatch_eq_some h
  show (m.endTime + U64_MOD - m.startTime) % U64_MOD / 60 = (m.endTime - m.startTime) / 60
  have hU : U64_MOD = 18446744073709551616 := by norm_num [U64_MOD]
  have hmod : (m.endTime + U64_MOD - m.startTime) % U64_MOD = m.endTime - m.startTime := by
    rw [hU] at hrange ⊢
    omega
  rw [hmod]

/-- Witness for C5: the spec's concrete example — start 1000000, end 1002400 —
parses with duration exactly 40 minutes. -/
theorem duration_floor_division_witness :
    ∃ gm, parseOneMatch 42 sampleMatchDuration = some gm ∧
      gm.duration_minutes = 40 := by
  obtain ⟨gm, hp⟩ := Option.isSome_iff_exists.mp
    (show (parseOneMatch 42 sampleMatchDuration).isSome = true by decide)
  refine ⟨gm, hp, ?_⟩
  rw [duration_floor_division hp (by decide) (by decide)]
  decide

/-- Counterexample to C5 as stated: a record whose raw end time precedes its
raw start time does **not** yield the (negative) floor of
`(endTime − startTime) / 60` — the `u64` subtraction wraps modulo `2^64`
instead, so the parsed duration differs from the claimed value. -/
theorem duration_negative_not_as_is :
    (parseOneMatch 42 sampleMatchNegative).map (fun gm => (gm.duration_minutes : Int)) ≠
      some (((sampleMatchNegative.endTime : Int) -
        (sampleMatchNegative.startTime : Int)).fdiv 60) := by decide

/-- **C6**: the participant list attached to a parsed `GameMatch` is the
point-change-descending ranking of the raw participants, each entry stripped
down to display name and final score, and for all adjacent pairs of that
ranking the preceding point change is ≥ the following one. -/
theorem player_results_sorted_desc {pid : Nat} {m : RawMatch} {gm : GameMatch}
    (h : parseOneMatch pid m = some gm) :
    gm.player_results =
      (rankPlayers m.players).map (fun p => { name := p.nickname, final_score := p.score }) ∧
    List.Chain' (fun a b : RawPlayer => b.gradingScore ≤ a.gradingScore)
      (rankPlayers m.players) := by
  obtain ⟨pos, game_type, target_entry, hf, hg, ht, rfl⟩ := parseOneMatch_eq_some h
  refine ⟨rfl, ?_⟩
  exact (List.sorted_insertionSort ptGE m.players).chain'

/-- Witness for C6 on a concrete three-participant record (raw order not
already ranked). -/
theorem player_results_sorted_desc_witness :
    ∃ gm, parseOneMatch 42 sampleMatchThree = some gm ∧
      gm.player_results =
        (rankPlayers sampleMatchThree.players).map
          (fun p => { name := p.nickname, final_score := p.score }) ∧
      List.Chain' (fun a b : RawPlayer => b.gradingScore ≤ a.gradingScore)
        (rankPlayers sampleMatchThree.players) := by
  obtain ⟨gm, hp⟩ := Option.isSome_iff_exists.mp
    (show (parseOneMatch 42 sampleMatchThree).isSome = true by decide)
  exact ⟨gm, hp, player_results_sorted_desc hp⟩

/-- Inserting a participant into a list passes only over participants with
strictly greater point change, so filtering by an exact point-change value
commutes with the insertion. -/
theorem filter_pt_orderedInsert (v : Int) (a : RawPlayer) (l : List RawPlayer) :
    (List.orderedInsert ptGE a l).filter (fun p => decide (p.gradingScore = v)) =
      if a.gradingScore = v then
        a :: l.filter (fun p => decide (p.gradingScore = v))
      else l.filter (fun p => decide (p.gradingScore = v)) := by
  induction l with
  | nil =>
    rw [List.orderedInsert_nil]
    by_cases h : a.gradingScore = v <;> simp [h, List.filter_cons]
  | cons b l ih =>
    show ((if ptGE a b then a :: b :: l else
        b :: List.orderedInsert ptGE a l).filter (fun p => decide (p.gradingScore = v))) = _
    by_cases hab : ptGE a b
    · by_cases h : a.gradingScore = v <;> simp [hab, h, List.filter_cons]
    · have halt : a.gradingScore < b.gradingScore := lt_of_not_le (fun hle => hab hle)
      by_cases h : a.gradingScore = v
      · have hbv : ¬b.gradingScore = v := by omega
        simp [hab, h, hbv, List.filter_cons, ih]
      · by_cases hb : b.gradingScore = v <;> simp [hab, h, hb, List.filter_cons, ih]

/-- **C10**: the rank sort is stable — for every point-change value, the
participants holding exactly that value appear in the ranked order in the same
relative order as in the raw upstream list, so ranking is a deterministic
function of the raw input. -/
theorem rankPlayers_stable (players : List RawPlayer) (v : Int) :
    (rankPlayers players).filter (fun p => decide (p.gradingScore = v)) =
      players.filter (fun p => decide (p.gradingScore = v)) := by
  induction players with
  | nil => rfl
  | cons a l ih =>
    have hstep : rankPlayers (a :: l) = List.orderedInsert ptGE a (rankPlayers l) := rfl
    rw [hstep, filter_pt_orderedInsert, List.filter_cons]
    by_cases h : a.gradingScore = v <;> simp [h, ih]

/-! ## Request-handler claims -/

/-- Counterexample to C8 as stated: a transport failure during the
player-search call yields the not-found outcome, not the generic-failure
outcome the claim requires for every non-"no such player" failure. -/
theorem transport_search_failure_yields_not_found :
    handle_player_stats_request "alice" (Except.error FindError.transport)
        (fun _ => some []) = Except.error StatusCode.NOT_FOUND ∧
      StatusCode.NOT_FOUND ≠ StatusCode.INTERNAL_SERVER_ERROR := ⟨rfl, by decide⟩

/-- **C8 (amended)**: any failure of the player-search call — a name resolving
to no record *or* a transport failure during the search — yields the not-found
outcome; any failure during history fetching yields the generic-failure
outcome, which carries no partial history; a successful search and fetch
yields the full page. -/
theorem handler_outcomes (player_name : String)
    (find_result : Except FindError Nat)
    (fetch_result : Nat → Option (List GameMatch)) :
    (∀ e, find_result = Except.error e →
      handle_player_stats_request player_name find_result fetch_result =
        Except.error StatusCode.NOT_FOUND) ∧
    (∀ pid, find_result = Except.ok pid → fetch_result pid = none →
      handle_player_stats_request player_name find_result fetch_result =
        Except.error StatusCode.INTERNAL_SERVER_ERROR) ∧
    (∀ pid history, find_result = Except.ok pid → fetch_result pid = some history →
      handle_player_stats_request player_name find_result fetch_result =
        Except.ok { player_name := player_name, game_history := history }) := by
  refine ⟨?_, ?_, ?_⟩
  · intro e he
    rw [he]
    rfl
  · intro pid hf hn
    rw [hf]
    simp [handle_player_stats_request, hn]
  · intro pid history hf hs
    rw [hf]
    simp [handle_player_stats_request, hs]

/-- Witness for C8 (amended), exercising all three outcomes concretely. -/
theorem handler_outcomes_witness :
    handle_player_stats_request "alice" (Except.error FindError.noPlayerFound)
        (fun _ => some []) = Except.error StatusCode.NOT_FOUND ∧
    handle_player_stats_request "alice" (Except.ok 42) (fun _ => none) =
        Except.error StatusCode.INTERNAL_SERVER_ERROR ∧
    handle_player_stats_request "alice" (Except.ok 42) (fun _ => some []) =
        Except.ok { player_name := "alice", game_history := [] } :=
  ⟨(handler_outcomes "alice" (Except.error FindError.noPlayerFound)
      (fun _ => some [])).1 FindError.noPlayerFound rfl,
   (handler_outcomes "alice" (Except.ok 42) (fun _ => none)).2.1 42 rfl rfl,
   (handler_outcomes "alice" (Except.ok 42) (fun _ => some [])).2.2 42 [] rfl rfl⟩

/-! ## Pagination helper lemmas -/

/-- A served page is a sublist of the simulated history. -/
theorem upstreamPage_sublist (history : List RawMatch) (cursor : Int) (limit : Nat) :
    (upstreamPage history cursor limit).Sublist history :=
  (List.take_sublist _ _).trans (List.filter_sublist _)

/-- Every record of a served page lies in the history and within the time
window. -/
theorem mem_upstreamPage {history : List RawMatch} {cursor : Int} {limit : Nat}
    {r : RawMatch} (h : r ∈ upstreamPage history cursor limit) :
    r ∈ history ∧ HISTORICAL_FLOOR ≤ r.startTime ∧ (r.startTime : Int) ≤ cursor := by
  have h1 := List.mem_of_mem_take h
  rw [List.mem_filter] at h1
  exact ⟨h1.1, of_decide_eq_true h1.2⟩

/-- Parsing transports any start-time-based pairwise relation from the raw
page to the batch. -/
theorem parse_pairwise_start {raw : List RawMatch} {batch : List GameMatch}
    {pid : Nat} (h : parse_match_data raw pid = some batch)
    {R : Nat → Nat → Prop}
    (hp : List.Pairwise (fun a b : RawMatch => R a.startTime b.startTime) raw) :
    List.Pairwise (fun a b : GameMatch => R a.start_time b.start_time) batch := by
  have h1 : List.Pairwise R (raw.map RawMatch.startTime) := List.pairwise_map.mpr hp
  rw [← parse_match_data_map_start h] at h1
  exact List.pairwise_map.mp h1

/-- Every match of a parsed batch takes its start time from some raw record of
the page. -/
theorem parse_mem_start {raw : List RawMatch} {batch : List GameMatch} {pid : Nat}
    (h : parse_match_data raw pid = some batch) :
    ∀ gm ∈ batch, ∃ r ∈ raw, gm.start_time = r.startTime := by
  intro gm hgm
  have h1 : gm.start_time ∈ raw.map RawMatch.startTime := by
    rw [← parse_match_data_map_start h]
    exact List.mem_map.mpr ⟨gm, hgm, rfl⟩
  obtain ⟨r, hr, hre⟩ := List.mem_map.mp h1
  exact ⟨r, hr, hre.symm⟩

/-- In a point-in-time-descending batch, the last match has the minimum start
time. -/
theorem getLast_min_start {batch : List GameMatch} (hb : batch ≠ [])
    (hp : List.Pairwise (fun a b : GameMatch => b.start_time ≤ a.start_time) batch) :
    ∀ gm ∈ batch, (batch.getLast hb).start_time ≤ gm.start_time := by
  intro gm hgm
  rcases pairwise_rel_getLast hp hb gm hgm with heq | hlt
  · rw [heq]
  · exact hlt

/-- `getLast` respects equality of lists. -/
theorem getLast_congr {α : Type} {l₁ l₂ : List α} (h : l₁ = l₂) (h₁ : l₁ ≠ []) :
    l₁.getLast h₁ = l₂.getLast (h ▸ h₁) := by
  subst h
  rfl

/-- The last match of a parsed batch takes its start time from the last raw
record of the page. -/
theorem parse_getLast_start {raw : List RawMatch} {batch : List GameMatch}
    {pid : Nat} (h : parse_match_data raw pid = some batch)
    (hb : batch ≠ []) (hr : raw ≠ []) :
    (batch.getLast hb).start_time = (raw.getLast hr).startTime := by
  have hmap := parse_match_data_map_start h
  have hb' : batch.map GameMatch.start_time ≠ [] := by simpa using hb
  have e1 := List.getLast_map GameMatch.start_time batch hb'
  have e3 := getLast_congr hmap hb'
  have e2 := List.getLast_map RawMatch.startTime raw (hmap ▸ hb')
  exact e1.symm.trans (e3.trans e2)

/-- One unfolding step of the pagination loop. -/
theorem fetchLoop_succ (history : List RawMatch) (player_id limit fuel : Nat)
    (cursor : Int) :
    fetchLoop history player_id limit (fuel + 1) cursor =
      match parse_match_data (upstreamPage history cursor limit) player_id with
      | none => none
      | some batch_matches =>
        if hb : batch_matches = [] then
          some [(cursor, batch_matches)]
        else if (upstreamPage history cursor limit).length < limit then
          some [(cursor, batch_matches)]
        else
          (fetchLoop history player_id limit fuel
            (((batch_matches.getLast hb).start_time : Int) - 1)).map
            (fun steps => (cursor, batch_matches) :: steps) := rfl

/-- Narrowing the window: filtering the history by a smaller cursor is the
same as filtering the current window again by the smaller cursor. -/
theorem filter_window_narrow (history : List RawMatch) {c c' : Int} (hcc : c' ≤ c) :
    history.filter
        (fun r => decide (HISTORICAL_FLOOR ≤ r.startTime ∧ (r.startTime : Int) ≤ c')) =
      (history.filter
        (fun r => decide (HISTORICAL_FLOOR ≤ r.startTime ∧ (r.startTime : Int) ≤ c))).filter
        (fun r => decide ((r.startTime : Int) ≤ c')) := by
  rw [List.filter_filter]
  apply List.filter_congr
  intro x _
  by_cases hA : HISTORICAL_FLOOR ≤ x.startTime
  · by_cases hc1 : (x.startTime : Int) ≤ c'
    · have hc2 : (x.startTime : Int) ≤ c := le_trans hc1 hcc
      simp [hA, hc1, hc2]
    · simp [hA, hc1]
  · simp [hA]

/-- In a strictly start-time-descending list, keeping the records whose start
time is strictly below the `n`-th page boundary's last start time is exactly
dropping the first `n` records. -/
theorem filter_le_getLast_take_sub_one {l : List RawMatch} (n : Nat)
    (hs : List.Pairwise (fun a b : RawMatch => b.startTime < a.startTime) l)
    (htn : l.take n ≠ []) :
    l.filter (fun r =>
        decide ((r.startTime : Int) ≤ (((l.take n).getLast htn).startTime : Int) - 1)) =
      l.drop n := by
  have hsplit := List.take_append_drop n l
  have hs' : List.Pairwise (fun a b : RawMatch => b.startTime < a.startTime)
      (l.take n ++ l.drop n) := hsplit.symm ▸ hs
  have hparts := List.pairwise_append.mp hs'
  have htake_nil : (l.take n).filter (fun r =>
      decide ((r.startTime : Int) ≤ (((l.take n).getLast htn).startTime : Int) - 1)) = [] := by
    rw [List.filter_eq_nil_iff]
    intro x hx
    rcases pairwise_rel_getLast hparts.1 htn x hx with heq | hlt
    · rw [heq]
      simp only [decide_eq_true_eq]
      omega
    · simp only [decide_eq_true_eq]
      omega
  have hdrop_self : (l.drop n).filter (fun r =>
      decide ((r.startTime : Int) ≤ (((l.take n).getLast htn).startTime : Int) - 1)) =
      l.drop n := by
    rw [List.filter_eq_self]
    intro y hy
    have hcross := hparts.2.2 _ (List.getLast_mem htn) y hy
    simp only [decide_eq_true_eq]
    omega
  calc l.filter (fun r =>
          decide ((r.startTime : Int) ≤ (((l.take n).getLast htn).startTime : Int) - 1))
      = (l.take n ++ l.drop n).filter (fun r =>
          decide ((r.startTime : Int) ≤ (((l.take n).getLast htn).startTime : Int) - 1)) := by
        rw [hsplit]
    _ = l.drop n := by rw [List.filter_append, htake_nil, hdrop_self, List.nil_append]

/-- One unfolding step of the pagination loop, once the page's parse result is
known. -/
theorem fetchLoop_succ_parse {history : List RawMatch} {player_id limit : Nat}
    {fuel : Nat} {cursor : Int} {batch : List GameMatch}
    (hp : parse_match_data (upstreamPage history cursor limit) player_id = some batch) :
    fetchLoop history player_id limit (fuel + 1) cursor =
      if hb : batch = [] then some [(cursor, batch)]
      else if (upstreamPage history cursor limit).length < limit then
        some [(cursor, batch)]
      else
        (fetchLoop history player_id limit fuel
          (((batch.getLast hb).start_time : Int) - 1)).map
          (fun steps => (cursor, batch) :: steps) := by
  rw [fetchLoop_succ, hp]

/-- The pagination loop, given fuel exceeding the number of unretrieved
records, consumes its whole window: the concatenated batches are exactly the
parse of the filtered window. -/
theorem fetchLoop_complete (history : List RawMatch) (pid limit : Nat)
    (hlim : 0 < limit)
    (hsorted : List.Pairwise (fun a b : RawMatch => b.startTime < a.startTime) history) :
    ∀ (fuel : Nat) (c : Int) (suffix : List RawMatch) (ms : List GameMatch),
      suffix.length < fuel →
      history.filter
        (fun r => decide (HISTORICAL_FLOOR ≤ r.startTime ∧ (r.startTime : Int) ≤ c)) = suffix →
      parse_match_data suffix pid = some ms →
      ∃ steps, fetchLoop history pid limit fuel c = some steps ∧
        (steps.map Prod.snd).flatten = ms := by
  intro fuel
  induction fuel with
  | zero =>
    intro c suffix ms hlt _ _
    exact absurd hlt (by omega)
  | succ fuel ih =>
    intro c suffix ms hlt hfilter hparse
    have hraw : upstreamPage history c limit = suffix.take limit := by
      rw [upstreamPage, hfilter]
    have hparse_take : parse_match_data (suffix.take limit) pid = some (ms.take limit) :=
      (parse_match_data_take_drop hparse limit).1
    have hlen : ms.length = suffix.length := parse_match_data_length hparse
    rw [fetchLoop_succ_parse (by rw [hraw]; exact hparse_take), hraw]
    by_cases hsnil : suffix = []
    · subst hsnil
      have hms : ms = [] := List.length_eq_zero.mp (by rw [hlen]; rfl)
      subst hms
      rw [List.take_nil, dif_pos rfl]
      exact ⟨[(c, [])], rfl, by simp⟩
    · have hms_ne : ms ≠ [] := by
        intro h
        exact hsnil (List.length_eq_zero.mp (by rw [← hlen, h]; rfl))
      have htake_ne : ¬(ms.take limit = []) := by
        rw [List.take_eq_nil_iff]
        rintro (h | h)
        · omega
        · exact hms_ne h
      rw [dif_neg htake_ne]
      by_cases hshort : (suffix.take limit).length < limit
      · rw [if_pos hshort]
        have hslen : suffix.length < limit := by
          rw [List.length_take] at hshort
          omega
        have htake_all : ms.take limit = ms := List.take_of_length_le (by omega)
        exact ⟨[(c, ms.take limit)], rfl, by simp [htake_all]⟩
      · rw [if_neg hshort]
        have hslen : limit ≤ suffix.length := by
          rw [List.length_take] at hshort
          omega
        have hsuffix_sorted : List.Pairwise
            (fun a b : RawMatch => b.startTime < a.startTime) suffix := by
          have hsub := List.Pairwise.sublist (List.filter_sublist
            (p := fun r => decide (HISTORICAL_FLOOR ≤ r.startTime ∧ (r.startTime : Int) ≤ c))
            history) hsorted
          rwa [hfilter] at hsub
        have htn : suffix.take limit ≠ [] := by
          rw [Ne, List.take_eq_nil_iff]
          rintro (h | h)
          · omega
          · exact hsnil h
        have hT : ((ms.take limit).getLast htake_ne).start_time =
            ((suffix.take limit).getLast htn).startTime :=
          parse_getLast_start hparse_take htake_ne htn
        have hmemT : (suffix.take limit).getLast htn ∈ suffix :=
          List.mem_of_mem_take (List.getLast_mem htn)
        have hmemF : (suffix.take limit).getLast htn ∈ history.filter
            (fun r => decide (HISTORICAL_FLOOR ≤ r.startTime ∧ (r.startTime : Int) ≤ c)) := by
          rw [hfilter]
          exact hmemT
        have hpredT : HISTORICAL_FLOOR ≤ ((suffix.take limit).getLast htn).startTime ∧
            ((((suffix.take limit).getLast htn).startTime : Int)) ≤ c :=
          of_decide_eq_true (List.mem_filter.mp hmemF).2
        have hcc : (((ms.take limit).getLast htake_ne).start_time : Int) - 1 ≤ c := by
          rw [hT]
          have := hpredT.2
          omega
        have hfilter' : history.filter
            (fun r => decide (HISTORICAL_FLOOR ≤ r.startTime ∧
              (r.startTime : Int) ≤ (((ms.take limit).getLast htake_ne).start_time : Int) - 1)) =
            suffix.drop limit := by
          rw [filter_window_narrow history hcc, hfilter, hT]
          exact filter_le_getLast_take_sub_one limit hsuffix_sorted htn
        have hparse_drop : parse_match_data (suffix.drop limit) pid = some (ms.drop limit) :=
          (parse_match_data_take_drop hparse limit).2
        have hlt' : (suffix.drop limit).length < fuel := by
          rw [List.length_drop]
          omega
        obtain ⟨steps', hrun', hflat'⟩ := ih _ _ _ hlt' hfilter' hparse_drop
        refine ⟨(c, ms.take limit) :: steps', ?_, ?_⟩
        · rw [hrun']
          rfl
        · simp only [List.map_cons, List.flatten_cons, hflat']
          exact List.take_append_drop limit ms

/-- A record parses whenever the target player is listed and the mode id is
known. -/
theorem parseOneMatch_isSome {pid : Nat} {r : RawMatch}
    (hp : ∃ p ∈ r.players, p.accountId = pid)
    (hm : (GameType.fromModeId r.modeId).isSome) :
    (parseOneMatch pid r).isSome := by
  obtain ⟨g, hg⟩ := Option.isSome_iff_exists.mp hm
  obtain ⟨p, hpmem, hpid⟩ := hp
  have hmem : p ∈ rankPlayers r.players :=
    ((List.perm_insertionSort ptGE r.players).mem_iff).mpr hpmem
  have hfind : (List.find? (fun q => decide (q.accountId = pid))
      (rankPlayers r.players)).isSome := by
    rw [List.find?_isSome]
    exact ⟨p, hmem, by simp [hpid]⟩
  obtain ⟨e, he⟩ := Option.isSome_iff_exists.mp hfind
  have hidx : (List.findIdx? (fun q => decide (q.accountId = pid))
      (rankPlayers r.players)).isSome := by
    rw [List.findIdx?_isSome, List.any_eq_true]
    exact ⟨p, hmem, by simp [hpid]⟩
  obtain ⟨i, hi⟩ := Option.isSome_iff_exists.mp hidx
  simp [parseOneMatch, hi, hg, he]

/-- A page parses whenever every record lists the target player and carries a
known mode id. -/
theorem parse_match_data_isSome_of_wf {page : List RawMatch} {pid : Nat}
    (hwf : ∀ r ∈ page, (∃ p ∈ r.players, p.accountId = pid) ∧
      (GameType.fromModeId r.modeId).isSome) :
    ∃ ms, parse_match_data page pid = some ms := by
  induction page with
  | nil => exact ⟨[], rfl⟩
  | cons r rest ih =>
    obtain ⟨gm, hgm⟩ := Option.isSome_iff_exists.mp
      (parseOneMatch_isSome (hwf r (by simp)).1 (hwf r (by simp)).2)
    obtain ⟨ms, hms⟩ := ih (fun x hx => hwf x (by simp [hx]))
    exact ⟨gm :: ms, by simp [parse_match_data, hgm, hms]⟩

/-- **C1 (amended)**: for a finite simulated upstream whose matches all list
the target player, carry known mode ids, lie between the historical floor and
the present, and have pairwise distinct (strictly decreasing) start times,
`fetch_complete_match_history` terminates within `K + 1` iterations and
returns exactly the `K` parsed matches, in strictly descending start-time
order and with no duplicates.  (When a page-boundary pair shares a start time
the claim fails: the later tied match is skipped, see the counterexample.) -/
theorem fetch_complete_match_history_total (history : List RawMatch) (pid : Nat)
    (now : Int)
    (hsorted : List.Pairwise (fun a b : RawMatch => b.startTime < a.startTime) history)
    (hwindow : ∀ r ∈ history, HISTORICAL_FLOOR ≤ r.startTime ∧ (r.startTime : Int) ≤ now)
    (hwf : ∀ r ∈ history, (∃ p ∈ r.players, p.accountId = pid) ∧
      (GameType.fromModeId r.modeId).isSome) :
    ∃ ms, fetch_complete_match_history history pid now (history.length + 1) = some ms ∧
      parse_match_data history pid = some ms ∧
      ms.length = history.length ∧
      List.Pairwise (fun a b : GameMatch => b.start_time < a.start_time) ms ∧
      ms.Nodup := by
  obtain ⟨ms, hms⟩ := parse_match_data_isSome_of_wf hwf
  have hfilter : history.filter
      (fun r => decide (HISTORICAL_FLOOR ≤ r.startTime ∧ (r.startTime : Int) ≤ now)) =
      history :=
    List.filter_eq_self.mpr (fun r hr => decide_eq_true (hwindow r hr))
  obtain ⟨steps, hrun, hflat⟩ := fetchLoop_complete history pid 500 (by omega) hsorted
    (history.length + 1) now history ms (by omega) hfilter hms
  have hpair : List.Pairwise (fun a b : GameMatch => b.start_time < a.start_time) ms :=
    parse_pairwise_start (R := fun x y => y < x) hms hsorted
  refine ⟨ms, ?_, hms, parse_match_data_length hms, hpair, ?_⟩
  · rw [fetch_complete_match_history, hrun]
    simp [hflat]
  · exact List.Pairwise.imp (fun h heq => absurd (heq ▸ h) (lt_irrefl _)) hpair

/-- Witness for C1 (amended) on a concrete two-match history. -/
theorem fetch_complete_match_history_total_witness :
    ∃ ms, fetch_complete_match_history smallHistory 42 1262304000300
        (smallHistory.length + 1) = some ms ∧
      parse_match_data smallHistory 42 = some ms ∧
      ms.length = smallHistory.length ∧
      List.Pairwise (fun a b : GameMatch => b.start_time < a.start_time) ms ∧
      ms.Nodup :=
  fetch_complete_match_history_total smallHistory 42 1262304000300
    (by decide) (by decide) (by decide)

set_option maxRecDepth 100000 in
set_option maxHeartbeats 4000000 in
/-- Counterexample to C1 as stated: on a 501-match history whose page-boundary
pair (matches 500 and 501) shares a start time, the fetch terminates but
returns only 500 of the 501 matches — the tied boundary match is skipped by
the cursor update `last start time − 1`. -/
theorem pagination_boundary_tie_loses_match :
    boundaryTieHistory.length = 501 ∧
    (fetch_complete_match_history boundaryTieHistory 42 1262304003000 502).map
      List.length = some 500 := by
  constructor
  · decide
  · decide

/-- Every cursor used during a run of the pagination loop is at most the
initial cursor. -/
theorem fetchLoop_cursor_le {history : List RawMatch} {pid limit : Nat} :
    ∀ {fuel : Nat} {c : Int} {steps : List (Int × List GameMatch)},
      fetchLoop history pid limit fuel c = some steps →
      ∀ s ∈ steps, s.1 ≤ c := by
  intro fuel
  induction fuel with
  | zero =>
    intro c steps h
    exact absurd h (by simp [fetchLoop])
  | succ fuel ih =>
    intro c steps h
    rcases hp : parse_match_data (upstreamPage history c limit) pid with _ | batch
    · rw [fetchLoop_succ, hp] at h
      exact absurd h (by simp)
    · rw [fetchLoop_succ_parse hp] at h
      by_cases hb : batch = []
      · rw [dif_pos hb] at h
        obtain rfl : steps = [(c, batch)] := (Option.some.inj h).symm
        intro s hs
        obtain rfl := List.mem_singleton.mp hs
        exact le_refl c
      · rw [dif_neg hb] at h
        by_cases hshort : (upstreamPage history c limit).length < limit
        · rw [if_pos hshort] at h
          obtain rfl : steps = [(c, batch)] := (Option.some.inj h).symm
          intro s hs
          obtain rfl := List.mem_singleton.mp hs
          exact le_refl c
        · rw [if_neg hshort] at h
          obtain ⟨steps', hrun', rfl⟩ := Option.map_eq_some'.mp h
          intro s hs
          rcases List.mem_cons.mp hs with rfl | hs'
          · exact le_refl c
          · obtain ⟨r, hr, hre⟩ := parse_mem_start hp _ (List.getLast_mem hb)
            have hrc : (r.startTime : Int) ≤ c := (mem_upstreamPage hr).2.2
            have hle := ih hrun' s hs'
            omega

/-- **C7**: within one run of the pagination loop over a descending-time
upstream, the cursor moves strictly backward — every later page request uses a
cursor strictly smaller than every earlier cursor and strictly smaller than
every start time retrieved by the earlier pages (in particular, strictly below
the minimum start time seen so far). -/
theorem cursor_monotonicity {history : List RawMatch} {pid limit : Nat} :
    ∀ {fuel : Nat} {now : Int} {steps : List (Int × List GameMatch)},
      List.Pairwise (fun a b : RawMatch => b.startTime ≤ a.startTime) history →
      fetchLoop history pid limit fuel now = some steps →
      List.Pairwise (fun s t : Int × List GameMatch =>
        t.1 < s.1 ∧ ∀ gm ∈ s.2, t.1 < (gm.start_time : Int)) steps := by
  intro fuel
  induction fuel with
  | zero =>
    intro now steps _ hrun
    exact absurd hrun (by simp [fetchLoop])
  | succ fuel ih =>
    intro now steps hsorted hrun
    rcases hp : parse_match_data (upstreamPage history now limit) pid with _ | batch
    · rw [fetchLoop_succ, hp] at hrun
      exact absurd hrun (by simp)
    · rw [fetchLoop_succ_parse hp] at hrun
      by_cases hb : batch = []
      · rw [dif_pos hb] at hrun
        obtain rfl : steps = [(now, batch)] := (Option.some.inj hrun).symm
        exact List.pairwise_singleton _ _
      · rw [dif_neg hb] at hrun
        by_cases hshort : (upstreamPage history now limit).length < limit
        · rw [if_pos hshort] at hrun
          obtain rfl : steps = [(now, batch)] := (Option.some.inj hrun).symm
          exact List.pairwise_singleton _ _
        · rw [if_neg hshort] at hrun
          obtain ⟨steps', hrun', rfl⟩ := Option.map_eq_some'.mp hrun
          refine List.Pairwise.cons ?_ (ih hsorted hrun')
          intro t ht
          have hcle := fetchLoop_cursor_le hrun' t ht
          have hraw_sorted : List.Pairwise
              (fun a b : RawMatch => b.startTime ≤ a.startTime)
              (upstreamPage history now limit) :=
            List.Pairwise.sublist (upstreamPage_sublist history now limit) hsorted
          have hbatch_sorted : List.Pairwise
              (fun a b : GameMatch => b.start_time ≤ a.start_time) batch :=
            parse_pairwise_start (R := fun x y => y ≤ x) hp hraw_sorted
          have hmin := getLast_min_start hb hbatch_sorted
          constructor
          · obtain ⟨r, hr, hre⟩ := parse_mem_start hp _ (List.getLast_mem hb)
            have hrc : (r.startTime : Int) ≤ now := (mem_upstreamPage hr).2.2
            omega
          · intro gm hgm
            have h1 := hmin gm hgm
            omega

/-- Witness for C7: a three-match history walked with page size 2 produces two
page requests whose cursors strictly descend below all earlier start times. -/
theorem cursor_monotonicity_witness :
    ∃ steps, fetchLoop tinyHistory 42 2 4 1262304000400 = some steps ∧
      List.Pairwise (fun s t : Int × List GameMatch =>
        t.1 < s.1 ∧ ∀ gm ∈ s.2, t.1 < (gm.start_time : Int)) steps := by
  obtain ⟨steps, hrun⟩ := Option.isSome_iff_exists.mp
    (show (fetchLoop tinyHistory 42 2 4 1262304000400).isSome = true by decide)
  exact ⟨steps, hrun, cursor_monotonicity (by decide) hrun⟩
